import Mathlib

/-!
Verification development for the `simdriver` OpenFAST campaign driver.

This file gives a shallow embedding of the orchestration logic of
`src/simdriver/run_fast.py`, `src/simdriver/initial_state.py` and
`src/simdriver/run_turbsim.py`, and proves (or refutes) a list of claims
about it.  Python floats are idealized as exact rationals, external
processes and the filesystem are abstracted into per-case outcome records
(exit code, parsed-output contents) supplied as inputs to the embedded
control flow.
-/

namespace Simdriver

/-! ## Python-style rounding (banker's rounding, as used by `round`). -/

/-- Python `round(q)`: round half to even, on exact rationals. -/
def pyRound (q : ℚ) : ℤ :=
  let f : ℤ := ⌊q⌋
  let r : ℚ := q - f
  if r < 1/2 then f
  else if 1/2 < r then f + 1
  else if f % 2 = 0 then f else f + 1

/-! ## `numpy.arange` on exact rationals.

`np.arange(start, stop, step)` returns `start + k*step` for
`0 ≤ k < ⌈(stop - start)/step⌉`. -/

/-- Model of `numpy.arange` (for `step ≠ 0`), on exact rationals. -/
def arange (start stop step : ℚ) : List ℚ :=
  (List.range (⌈(stop - start) / step⌉).toNat).map
    (fun (k : ℕ) => start + (k : ℚ) * step)

/-! ## `itertools.batched`

`run_fast.py` line 260 and `run_turbsim.py` line 138 iterate over the case
list with `batched(inflow_files, max_processes)`: consecutive groups of
size `n`, last group possibly shorter.  (`itertools.batched` requires
`n ≥ 1`.) -/

/-- Model of `itertools.batched` for `n ≥ 1`. -/
def batched (n : ℕ) : List α → List (List α)
  | [] => []
  | x :: xs => (x :: xs.take (n - 1)) :: batched n (xs.drop (n - 1))
termination_by l => l.length
decreasing_by simp [List.length_drop]; omega

theorem batched_nil (n : ℕ) : batched n ([] : List α) = [] := by
  simp [batched]

theorem batched_cons (n : ℕ) (x : α) (xs : List α) :
    batched n (x :: xs) = (x :: xs.take (n - 1)) :: batched n (xs.drop (n - 1)) := by
  rw [batched]

theorem batched_eq_nil_iff (n : ℕ) (l : List α) : batched n l = [] ↔ l = [] := by
  cases l with
  | nil => simp [batched_nil]
  | cons x xs => simp [batched_cons]

/-- The groups concatenate back to the input list, in order. -/
theorem batched_flatten (n : ℕ) (l : List α) : (batched n l).flatten = l := by
  induction l using batched.induct n with
  | case1 => simp [batched_nil]
  | case2 x xs ih =>
      rw [batched_cons]
      simp only [List.flatten_cons, ih]
      simp [List.take_append_drop]

/-- Every group is nonempty and has size at most `n` (for `n ≥ 1`). -/
theorem batched_length_le (n : ℕ) (hn : 1 ≤ n) (l : List α) :
    ∀ b ∈ batched n l, b ≠ [] ∧ b.length ≤ n := by
  induction l using batched.induct n with
  | case1 => simp [batched_nil]
  | case2 x xs ih =>
      rw [batched_cons]
      intro b hb
      rcases List.mem_cons.mp hb with h | h
      · subst h
        constructor
        · simp
        · simp only [List.length_cons, List.length_take]
          omega
      · exact ih b h

/-- Every group except possibly the last has size exactly `n`. -/
theorem batched_dropLast_length (n : ℕ) (hn : 1 ≤ n) (l : List α) :
    ∀ b ∈ (batched n l).dropLast, b.length = n := by
  induction l using batched.induct n with
  | case1 => simp [batched_nil]
  | case2 x xs ih =>
      rw [batched_cons]
      intro b hb
      by_cases h : batched n (xs.drop (n - 1)) = []
      · rw [h] at hb
        simp at hb
      · rw [List.dropLast_cons_of_ne_nil h] at hb
        rcases List.mem_cons.mp hb with h' | h'
        · subst h'
          have hxs : xs.drop (n - 1) ≠ [] := by
            intro hc
            exact h (by rw [hc]; simp [batched_nil])
          have : n - 1 ≤ xs.length := by
            by_contra hlt
            push_neg at hlt
            exact hxs (List.drop_eq_nil_of_le (le_of_lt hlt))
          simp only [List.length_cons, List.length_take]
          omega
        · exact ih b h'

/-! ## The batch scheduler's event trace.

In `run_fast.py` each batch is processed strictly sequentially: all
processes of the batch are spawned (the `subprocess.Popen` loop, lines
357-369), then the coordinating thread blocks on `task.wait()` for every
process of the batch (lines 373-377) before the `for batch in batched(...)`
loop advances.  We record this as a sequential event trace. -/

/-- A scheduler event: a process is spawned, or its exit is observed. -/
inductive Ev (α : Type) where
  | spawn (c : α)
  | exited (c : α)
deriving DecidableEq

/-- Events of one batch: all spawns, then all observed exits. -/
def batchEvents (b : List α) : List (Ev α) :=
  b.map Ev.spawn ++ b.map Ev.exited

/-- The sequential event trace of the whole campaign. -/
def schedTrace (n : ℕ) (cases : List α) : List (Ev α) :=
  (batched n cases).flatMap batchEvents

theorem schedTrace_split (n : ℕ) (cases : List α) (g : ℕ) :
    schedTrace n cases =
      ((batched n cases).take (g + 1)).flatMap batchEvents ++
        ((batched n cases).drop (g + 1)).flatMap batchEvents := by
  rw [schedTrace, ← List.flatMap_append, List.take_append_drop]

/-- The hard barrier: there is a point `p` in the trace such that every
exit of group `g` has been observed by position `p`, and every spawn of
group `g+1` happens strictly after position `p`. -/
theorem schedTrace_barrier (n : ℕ) (cases : List α) (hnd : cases.Nodup)
    (g : ℕ) (hg : g + 1 < (batched n cases).length) :
    ∃ p,
      (∀ c ∈ (batched n cases).getD g [],
        Ev.exited c ∈ (schedTrace n cases).take p) ∧
      (∀ c ∈ (batched n cases).getD (g + 1) [],
        Ev.spawn c ∉ (schedTrace n cases).take p ∧
          Ev.spawn c ∈ (schedTrace n cases).drop p) := by
  set B := batched n cases with hB
  have hgB : g < B.length := by omega
  have hgd : B.getD g [] = B[g] := by
    rw [List.getD_eq_getElem?_getD, List.getElem?_eq_getElem hgB, Option.getD_some]
  have hgd1 : B.getD (g + 1) [] = B[g + 1] := by
    rw [List.getD_eq_getElem?_getD, List.getElem?_eq_getElem hg, Option.getD_some]
  have hmem_drop : B[g + 1] ∈ B.drop (g + 1) := by
    rw [List.drop_eq_getElem_cons hg]
    exact List.mem_cons_self _ _
  refine ⟨((B.take (g + 1)).flatMap batchEvents).length, ?_, ?_⟩
  · intro c hc
    rw [hgd] at hc
    rw [schedTrace_split n cases g, List.take_left]
    have hmem : B[g] ∈ B.take (g + 1) := by
      rw [List.take_succ]
      apply List.mem_append_right
      rw [List.getElem?_eq_getElem hgB]
      simp
    refine List.mem_flatMap.mpr ⟨B[g], hmem, ?_⟩
    rw [batchEvents]
    exact List.mem_append_right _ (List.mem_map.mpr ⟨c, hc, rfl⟩)
  · intro c hc
    rw [hgd1] at hc
    have hdisj : ∀ b ∈ B.take (g + 1), c ∉ b := by
      intro b hb hcb
      -- c lies in group g+1, which comes after every group of the prefix;
      -- Nodup of the flattening makes the prefix and the suffix disjoint.
      have hflat : B.flatten.Nodup := by rw [hB, batched_flatten]; exact hnd
      have hsplit : B.flatten =
          (B.take (g + 1)).flatten ++ (B.drop (g + 1)).flatten := by
        rw [← List.flatten_append, List.take_append_drop]
      rw [hsplit] at hflat
      have hdisj2 := (List.nodup_append.mp hflat).2.2
      exact hdisj2 (List.mem_flatten.mpr ⟨b, hb, hcb⟩)
        (List.mem_flatten.mpr ⟨B[g + 1], hmem_drop, hc⟩)
    constructor
    · rw [schedTrace_split n cases g, List.take_left]
      intro hmem
      obtain ⟨b, hb, hevb⟩ := List.mem_flatMap.mp hmem
      have hcb : c ∈ b := by
        rw [batchEvents] at hevb
        rcases List.mem_append.mp hevb with h | h
        · obtain ⟨c', hc'b, hce⟩ := List.mem_map.mp h
          cases hce
          exact hc'b
        · obtain ⟨c', hc'b, hce⟩ := List.mem_map.mp h
          cases hce
      exact hdisj b hb hcb
    · rw [schedTrace_split n cases g, List.drop_left]
      have hmem : B[g + 1] ∈ B.drop (g + 1) := by
        rw [List.drop_eq_getElem_cons hg]
        exact List.mem_cons_self _ _
      refine List.mem_flatMap.mpr ⟨B[g + 1], hmem, ?_⟩
      rw [batchEvents]
      exact List.mem_append_left _ (List.mem_map.mpr ⟨c, hc, rfl⟩)

/-- Claim C2: for every ordered sequence of cases and every concurrency
limit `N ≥ 1`, the scheduler partitions the sequence into consecutive
groups of size at most `N` preserving the input order (all groups of size
exactly `N` except possibly the last), and group `G+1` is never dispatched
before every process of group `G` has exited. -/
theorem claim_C2_scheduler_batching {α : Type} (cases : List α) (n : ℕ)
    (hn : 1 ≤ n) (hnd : cases.Nodup) :
    (batched n cases).flatten = cases ∧
    (∀ b ∈ batched n cases, b ≠ [] ∧ b.length ≤ n) ∧
    (∀ b ∈ (batched n cases).dropLast, b.length = n) ∧
    (∀ g, g + 1 < (batched n cases).length →
      ∃ p,
        (∀ c ∈ (batched n cases).getD g [],
          Ev.exited c ∈ (schedTrace n cases).take p) ∧
        (∀ c ∈ (batched n cases).getD (g + 1) [],
          Ev.spawn c ∉ (schedTrace n cases).take p ∧
            Ev.spawn c ∈ (schedTrace n cases).drop p)) :=
  ⟨batched_flatten n cases, batched_length_le n hn cases,
    batched_dropLast_length n hn cases,
    fun g hg => schedTrace_barrier n cases hnd g hg⟩

/-- Witness for C2 at a concrete input: five cases, concurrency limit 2. -/
theorem claim_C2_scheduler_batching_witness :
    (1 ≤ 2 ∧ ([0, 1, 2, 3, 4] : List ℕ).Nodup) ∧
    ((batched 2 [0, 1, 2, 3, 4]).flatten = [0, 1, 2, 3, 4] ∧
    (∀ b ∈ batched 2 [0, 1, 2, 3, 4], b ≠ [] ∧ b.length ≤ 2) ∧
    (∀ b ∈ (batched 2 [0, 1, 2, 3, 4]).dropLast, b.length = 2) ∧
    (∀ g, g + 1 < (batched 2 ([0, 1, 2, 3, 4] : List ℕ)).length →
      ∃ p,
        (∀ c ∈ (batched 2 [0, 1, 2, 3, 4]).getD g [],
          Ev.exited c ∈ (schedTrace 2 [0, 1, 2, 3, 4]).take p) ∧
        (∀ c ∈ (batched 2 [0, 1, 2, 3, 4]).getD (g + 1) [],
          Ev.spawn c ∉ (schedTrace 2 [0, 1, 2, 3, 4]).take p ∧
            Ev.spawn c ∈ (schedTrace 2 [0, 1, 2, 3, 4]).drop p))) :=
  ⟨⟨by decide, by decide⟩,
    claim_C2_scheduler_batching [0, 1, 2, 3, 4] 2 (by decide) (by decide)⟩

/-! ## Campaign execution and output ingestion (`run_fast.py`, lines 256-424).

One `CaseOutcome` records what the external world did for one case: the
exit code of its OpenFAST process and, if the `.outb` output file could be
loaded and converted, the parsed column names of its output table
(`none` means `FASTOutputFile(...)`/`toDataFrame` raised). -/

/-- The externally determined outcome of one dispatched case. -/
structure CaseOutcome where
  id : String
  exitCode : ℤ
  parsed : Option (List String)
deriving DecidableEq

/-- The `RENAME` column mapping of `run_fast.py` (lines 30-45). -/
def RENAME : List (String × String) :=
  [("Time_[s]", "time"),
   ("Wind1VelX_[m/s]", "v0"),
   ("RotSpeed_[rpm]", "rot_speed"),
   ("RotTorq_[kN-m]", "rot_torque"),
   ("GenPwr_[kW]", "gen_power"),
   ("BldPitch1_[deg]", "pitch"),
   ("RootMEdg1_[kN-m]", "M_b1_e"),
   ("RootMFlp1_[kN-m]", "M_b1_f"),
   ("RootMEdg2_[kN-m]", "M_b2_e"),
   ("RootMFlp2_[kN-m]", "M_b2_f"),
   ("RootMEdg3_[kN-m]", "M_b3_e"),
   ("RootMFlp3_[kN-m]", "M_b3_f"),
   ("TwrBsMyt_[kN-m]", "M_tower_fa"),
   ("TwrBsMxt_[kN-m]", "M_tower_ss")]

/-- `DataFrame.rename(columns=RENAME)`: columns in the mapping are
renamed, all others are kept unchanged. -/
def renameCols (cols : List String) : List String :=
  cols.map (fun c => ((RENAME.lookup c).getD c))

/-- The `error` flag computed for one batch (lines 372-377): initialized
to `False`, set iff some process of the batch exited non-zero. -/
def batchError (b : List CaseOutcome) : Bool :=
  b.any (fun c => c.exitCode != 0)

/-- The value of the local variable `error` after the batch loop: the last
batch's flag, or unassigned (`none`) when there was no batch at all. -/
def finalErrorFlag (cases : List CaseOutcome) (n : ℕ) : Option Bool :=
  (batched n cases).foldl (fun _ b => some (batchError b)) none

/-- Output ingestion (lines 400-412): one pass over all cases; a parse
failure appends the case id to `failures` and moves on, a success writes
the renamed table as the case's `.parquet` artifact. -/
def processOutput (cases : List CaseOutcome) :
    List (String × List String) × List String :=
  cases.foldl
    (fun acc c =>
      match c.parsed with
      | some cols => (acc.1 ++ [(c.id, renameCols cols)], acc.2)
      | none => (acc.1, acc.2 ++ [c.id]))
    ([], [])

/-- The failure report printed after ingestion (lines 414-417): emitted
only when the failure list is nonempty; its headline count is
`len(inflow_files)` — the total number of cases, not the number of
failures. -/
def failureReport (cases : List CaseOutcome) : Option (ℕ × List String) :=
  if (processOutput cases).2.length ≠ 0 then
    some (cases.length, (processOutput cases).2)
  else none

/-- A Python runtime error reachable by the modelled code. -/
inductive PyErr where
  | unboundLocalError
deriving DecidableEq

/-- The completion message step (lines 419-423): `if error:` reads the
local `error`, which is unassigned when no batch ever ran. -/
def completionMessage (cases : List CaseOutcome) (n : ℕ) :
    Except PyErr String :=
  match finalErrorFlag cases n with
  | none => .error .unboundLocalError
  | some true => .ok "\nOpenFAST terminated, errors occured.\n"
  | some false => .ok "\nOpenFAST simulation completed successfully.\n"

/-- Ids of the cases whose output was ingested into a parquet artifact. -/
def runFastArtifacts (cases : List CaseOutcome) : List String :=
  (processOutput cases).1.map (fun a => a.1)

theorem processOutput_aux (cases : List CaseOutcome)
    (acc : List (String × List String) × List String) :
    cases.foldl
      (fun acc c =>
        match c.parsed with
        | some cols => (acc.1 ++ [(c.id, renameCols cols)], acc.2)
        | none => (acc.1, acc.2 ++ [c.id]))
      acc =
    (acc.1 ++ cases.filterMap
        (fun c => c.parsed.map (fun cols => (c.id, renameCols cols))),
      acc.2 ++ (cases.filter (fun c => c.parsed.isNone)).map (fun c => c.id)) := by
  induction cases generalizing acc with
  | nil => simp
  | cons c cs ih =>
      cases hp : c.parsed with
      | some cols => simp [List.foldl_cons, hp, ih, List.filterMap_cons, List.filter_cons]
      | none => simp [List.foldl_cons, hp, ih, List.filterMap_cons, List.filter_cons]

/-- The ingestion failure list is exactly the ids of the cases whose
output failed to parse, in input order. -/
theorem processOutput_failures (cases : List CaseOutcome) :
    (processOutput cases).2 =
      (cases.filter (fun c => c.parsed.isNone)).map (fun c => c.id) := by
  rw [processOutput, processOutput_aux]
  simp

/-- The produced artifacts are exactly the renamed tables of the cases
whose output parsed, in input order. -/
theorem processOutput_artifacts (cases : List CaseOutcome) :
    (processOutput cases).1 =
      cases.filterMap
        (fun c => c.parsed.map (fun cols => (c.id, renameCols cols))) := by
  rw [processOutput, processOutput_aux]
  simp

theorem foldl_overwrite_last {β : Type} (f : β → Option Bool) :
    ∀ (B : List β) (init : Option Bool) (h : B ≠ []),
      B.foldl (fun _ b => f b) init = f (B.getLast h)
  | [b], _, _ => by simp
  | b :: b' :: bs, init, _ => by
      rw [List.foldl_cons, List.getLast_cons (by simp)]
      exact foldl_overwrite_last f (b' :: bs) (f b) (by simp)

/-- After the batch loop, the `error` flag holds the last batch's value
only (and is unassigned when there was no batch). -/
theorem finalErrorFlag_eq (cases : List CaseOutcome) (n : ℕ)
    (h : cases ≠ []) :
    finalErrorFlag cases n =
      some (batchError ((batched n cases).getLast
        (by rwa [ne_eq, batched_eq_nil_iff]))) := by
  rw [finalErrorFlag, foldl_overwrite_last (fun b => some (batchError b))]

/-- Claim C1 counterexample: with concurrency limit 1 and two cases whose
first process exits non-zero, a case failed in the campaign, yet the
end-of-run flag holds `false`, the completion message says "completed
successfully", and the failed id appears in no failure list — the flag is
not "true iff at least one case failed", and nothing is returned to the
caller. -/
theorem claim_C1_counterexample :
    ([⟨"U_05d00", 1, some [""]⟩, ⟨"U_10d00", 0, some [""]⟩] :
        List CaseOutcome).any (fun c => c.exitCode != 0 || c.parsed.isNone) =
      true ∧
    finalErrorFlag
        [⟨"U_05d00", 1, some [""]⟩, ⟨"U_10d00", 0, some [""]⟩] 1 =
      some false ∧
    completionMessage
        [⟨"U_05d00", 1, some [""]⟩, ⟨"U_10d00", 0, some [""]⟩] 1 =
      .ok "\nOpenFAST simulation completed successfully.\n" ∧
    (processOutput
        [⟨"U_05d00", 1, some [""]⟩, ⟨"U_10d00", 0, some [""]⟩]).2 = [] := by
  have hb : batched 1
      [(⟨"U_05d00", 1, some [""]⟩ : CaseOutcome), ⟨"U_10d00", 0, some [""]⟩] =
      [[⟨"U_05d00", 1, some [""]⟩], [⟨"U_10d00", 0, some [""]⟩]] := by
    simp [batched_cons, batched_nil]
  refine ⟨rfl, ?_, ?_, ?_⟩
  · rw [finalErrorFlag, hb]
    rfl
  · rw [completionMessage, finalErrorFlag, hb]
    rfl
  · rw [processOutput_failures]
    rfl

/-- Claim C1 (amended): `run_fast` returns no value to its caller.  Its
end-of-run message is determined solely by the exit codes of the *last*
batch (the `error` flag is reinitialized per batch); failures of earlier
batches and all output-ingestion failures leave the message at "completed
successfully".  The ingestion failure list contains exactly the ids of the
cases whose output failed to ingest, in order, and is printed only when
nonempty, under a headline whose count is the total number of cases rather
than the number of failures. -/
theorem claim_C1_amended (cases : List CaseOutcome) (n : ℕ)
    (h : cases ≠ []) :
    finalErrorFlag cases n =
      some (batchError ((batched n cases).getLastD [])) ∧
    (processOutput cases).2 =
      (cases.filter (fun c => c.parsed.isNone)).map (fun c => c.id) ∧
    completionMessage cases n =
      .ok (if batchError ((batched n cases).getLastD []) then
            "\nOpenFAST terminated, errors occured.\n"
          else "\nOpenFAST simulation completed successfully.\n") ∧
    ((processOutput cases).2 ≠ [] →
      failureReport cases = some (cases.length, (processOutput cases).2)) := by
  have hB : batched n cases ≠ [] := by rwa [ne_eq, batched_eq_nil_iff]
  have hlast : (batched n cases).getLastD [] = (batched n cases).getLast hB := by
    rw [List.getLastD_eq_getLast?, List.getLast?_eq_getLast _ hB, Option.getD_some]
  have hflag : finalErrorFlag cases n =
      some (batchError ((batched n cases).getLastD [])) := by
    rw [hlast, finalErrorFlag_eq cases n h]
  refine ⟨hflag, processOutput_failures cases, ?_, ?_⟩
  · rw [completionMessage, hflag]
    cases hb : batchError ((batched n cases).getLastD []) <;> simp
  · intro hne
    rw [failureReport, if_pos (by simpa [List.length_eq_zero] using hne)]

/-- Witness for the amended C1 at a concrete input. -/
theorem claim_C1_amended_witness :
    ([⟨"U_05d00", 0, some [""]⟩] : List CaseOutcome) ≠ [] ∧
    (finalErrorFlag [⟨"U_05d00", 0, some [""]⟩] 20 =
      some (batchError
        ((batched 20 [(⟨"U_05d00", 0, some [""]⟩ : CaseOutcome)]).getLastD [])) ∧
    (processOutput [⟨"U_05d00", 0, some [""]⟩]).2 =
      (([⟨"U_05d00", 0, some [""]⟩] : List CaseOutcome).filter
          (fun c => c.parsed.isNone)).map (fun c => c.id) ∧
    completionMessage [⟨"U_05d00", 0, some [""]⟩] 20 =
      .ok (if batchError
            ((batched 20 [(⟨"U_05d00", 0, some [""]⟩ : CaseOutcome)]).getLastD [])
          then "\nOpenFAST terminated, errors occured.\n"
          else "\nOpenFAST simulation completed successfully.\n") ∧
    ((processOutput [⟨"U_05d00", 0, some [""]⟩]).2 ≠ [] →
      failureReport [⟨"U_05d00", 0, some [""]⟩] =
        some (1, (processOutput [⟨"U_05d00", 0, some [""]⟩]).2))) :=
  ⟨by simp, claim_C1_amended [⟨"U_05d00", 0, some [""]⟩] 20 (by simp)⟩

/-- Claim C7: during output ingestion, a parse or conversion failure for
one case is caught rather than propagated, that case's id is appended to
the failure list exactly once, ingestion continues with every remaining
case (each other case with a readable output still yields its normalized
result artifact), and the failure list is reported at the end instead of
aborting the campaign. -/
theorem claim_C7_ingestion_tolerates_failures (cases : List CaseOutcome)
    (hnd : (cases.map (fun c => c.id)).Nodup) :
    (processOutput cases).2 =
      (cases.filter (fun c => c.parsed.isNone)).map (fun c => c.id) ∧
    (processOutput cases).1 =
      cases.filterMap
        (fun c => c.parsed.map (fun cols => (c.id, renameCols cols))) ∧
    (∀ c ∈ cases, c.parsed.isNone → (processOutput cases).2.count c.id = 1) ∧
    (∀ c ∈ cases, c.parsed.isSome → (processOutput cases).2.count c.id = 0) ∧
    ((processOutput cases).2 ≠ [] →
      failureReport cases = some (cases.length, (processOutput cases).2)) := by
  have hfail := processOutput_failures cases
  have hnodup : (processOutput cases).2.Nodup := by
    rw [hfail]
    have hsub : List.Sublist
        ((cases.filter (fun c => c.parsed.isNone)).map (fun c => c.id))
        (cases.map (fun c => c.id)) :=
      (List.filter_sublist cases).map (fun c => c.id)
    exact hnd.sublist hsub
  refine ⟨hfail, processOutput_artifacts cases, ?_, ?_, ?_⟩
  · intro c hc hnone
    refine List.count_eq_one_of_mem hnodup ?_
    rw [hfail]
    exact List.mem_map.mpr ⟨c, List.mem_filter.mpr ⟨hc, hnone⟩, rfl⟩
  · intro c hc hsome
    rw [List.count_eq_zero]
    intro hmem
    rw [hfail] at hmem
    obtain ⟨c', hc', hcc⟩ := List.mem_map.mp hmem
    have hc'cases : c' ∈ cases := (List.mem_filter.mp hc').1
    have : c' = c := List.inj_on_of_nodup_map hnd hc'cases hc hcc
    subst this
    have hnone := (List.mem_filter.mp hc').2
    simp only [Option.isNone_iff_eq_none] at hnone
    rw [hnone] at hsome
    simp at hsome
  · intro hne
    rw [failureReport, if_pos (by simpa [List.length_eq_zero] using hne)]

/-- Witness for C7 at a concrete input: three cases, the middle one's
output fails to parse. -/
theorem claim_C7_ingestion_tolerates_failures_witness :
    (([⟨"U_05d00", 0, some ["Time_[s]"]⟩, ⟨"U_10d00", 1, none⟩,
        ⟨"U_15d00", 0, some ["Time_[s]"]⟩] : List CaseOutcome).map
          (fun c => c.id)).Nodup ∧
    ((processOutput [⟨"U_05d00", 0, some ["Time_[s]"]⟩, ⟨"U_10d00", 1, none⟩,
        ⟨"U_15d00", 0, some ["Time_[s]"]⟩]).2 =
      (([⟨"U_05d00", 0, some ["Time_[s]"]⟩, ⟨"U_10d00", 1, none⟩,
        ⟨"U_15d00", 0, some ["Time_[s]"]⟩] : List CaseOutcome).filter
          (fun c => c.parsed.isNone)).map (fun c => c.id) ∧
    (processOutput [⟨"U_05d00", 0, some ["Time_[s]"]⟩, ⟨"U_10d00", 1, none⟩,
        ⟨"U_15d00", 0, some ["Time_[s]"]⟩]).1 =
      ([⟨"U_05d00", 0, some ["Time_[s]"]⟩, ⟨"U_10d00", 1, none⟩,
        ⟨"U_15d00", 0, some ["Time_[s]"]⟩] : List CaseOutcome).filterMap
        (fun c => c.parsed.map (fun cols => (c.id, renameCols cols))) ∧
    (∀ c ∈ ([⟨"U_05d00", 0, some ["Time_[s]"]⟩, ⟨"U_10d00", 1, none⟩,
        ⟨"U_15d00", 0, some ["Time_[s]"]⟩] : List CaseOutcome),
      c.parsed.isNone →
        (processOutput [⟨"U_05d00", 0, some ["Time_[s]"]⟩, ⟨"U_10d00", 1, none⟩,
          ⟨"U_15d00", 0, some ["Time_[s]"]⟩]).2.count c.id = 1) ∧
    (∀ c ∈ ([⟨"U_05d00", 0, some ["Time_[s]"]⟩, ⟨"U_10d00", 1, none⟩,
        ⟨"U_15d00", 0, some ["Time_[s]"]⟩] : List CaseOutcome),
      c.parsed.isSome →
        (processOutput [⟨"U_05d00", 0, some ["Time_[s]"]⟩, ⟨"U_10d00", 1, none⟩,
          ⟨"U_15d00", 0, some ["Time_[s]"]⟩]).2.count c.id = 0) ∧
    ((processOutput [⟨"U_05d00", 0, some ["Time_[s]"]⟩, ⟨"U_10d00", 1, none⟩,
        ⟨"U_15d00", 0, some ["Time_[s]"]⟩]).2 ≠ [] →
      failureReport [⟨"U_05d00", 0, some ["Time_[s]"]⟩, ⟨"U_10d00", 1, none⟩,
          ⟨"U_15d00", 0, some ["Time_[s]"]⟩] =
        some (3, (processOutput [⟨"U_05d00", 0, some ["Time_[s]"]⟩,
          ⟨"U_10d00", 1, none⟩, ⟨"U_15d00", 0, some ["Time_[s]"]⟩]).2))) :=
  ⟨by decide,
    claim_C7_ingestion_tolerates_failures
      [⟨"U_05d00", 0, some ["Time_[s]"]⟩, ⟨"U_10d00", 1, none⟩,
        ⟨"U_15d00", 0, some ["Time_[s]"]⟩] (by decide)⟩

/-! ## Wind-input resolution and case construction (`run_fast.py`, lines 157-234). -/

/-- The wind-input type selected for an inflow file. -/
inductive WindType where
  | uniform
  | bts
  | wnd
deriving DecidableEq

/-- Python `str.endswith(suffix)`, on the character lists. -/
def pyEndswith (s suffix : String) : Bool :=
  suffix.data.isSuffixOf s.data

/-- Classification of a wind file path (lines 176, 189, 201): a plain
string-suffix check (`endswith("hh")` etc., without a dot), in this
order. `none` corresponds to the `raise ValueError("Unknown wind file.
Use .bts, .wnd or .hh.")` branch. -/
def classifyWind (path : String) : Option WindType :=
  if pyEndswith path "hh" then some .uniform
  else if pyEndswith path "bts" then some .bts
  else if pyEndswith path "wnd" then some .wnd
  else none

/-- One constructed case: the wind input path and the wind type written
into its inflow file. -/
structure WindCase where
  path : String
  wtype : WindType
deriving DecidableEq

/-- An error raised during case construction. -/
inductive CaseErr where
  | unknownWindFile
  | noWindInput
deriving DecidableEq

/-- The case-construction loop over the wind input files (lines 175-234):
each file is classified and its inflow case materialized in order; an
unclassifiable file raises immediately, so the loop stops there.  Returns
the cases materialized before any error, and the error if one occurred. -/
def buildWindCases : List String → List WindCase × Option CaseErr
  | [] => ([], none)
  | p :: rest =>
    match classifyWind p with
    | some t =>
        let r := buildWindCases rest
        (⟨p, t⟩ :: r.1, r.2)
    | none => ([], some .unknownWindFile)

/-- The `wind_files` argument of `run_fast`. -/
inductive WindFilesArg where
  | dirPath (p : String)
  | explicitList (l : List String)
  | noneArg

/-- Wind-input resolution (lines 158-172): when `wind_files` is not a
list, the directory (or, for `None`, the output directory) is globbed and
`ValueError("no wind input found.")` is raised if the glob is empty; an
explicit list is passed through with no emptiness check. -/
def resolveWindFiles (arg : WindFilesArg) (glob : String → List String)
    (output_dir : String) : Except CaseErr (List String) :=
  match arg with
  | .explicitList l => .ok l
  | .dirPath p => if glob p = [] then .error .noWindInput else .ok (glob p)
  | .noneArg =>
      if glob output_dir = [] then .error .noWindInput
      else .ok (glob output_dir)

/-- Claim C8 counterexample: in the wind list
`["a.xbts", "bad.xyz", "good.bts"]`, the file `a.xbts` (whose extension
`.xbts` is not one of `.bts`/`.wnd`/`.hh`) raises nothing — the suffix
check accepts it as a `.bts` input — while the error raised at `bad.xyz`
stops construction entirely: no case is built for the remaining input
`good.bts`. -/
theorem claim_C8_counterexample :
    buildWindCases ["a.xbts", "bad.xyz", "good.bts"] =
      ([⟨"a.xbts", .bts⟩], some .unknownWindFile) ∧
    classifyWind "a.xbts" = some .bts ∧
    classifyWind "bad.xyz" = none := by
  refine ⟨?_, by decide, by decide⟩
  rw [buildWindCases, buildWindCases]
  decide

/-- Claim C8 (amended): when a wind input file whose name does not end in
`"bts"`, `"wnd"` or `"hh"` (a plain suffix check, not an extension check)
is encountered during case construction, a `ValueError` is raised that is
fatal to the whole construction: the inputs before it have been
materialized, and no case is constructed for it or for any remaining wind
input. -/
theorem claim_C8_amended (pre : List String) (p : String)
    (post : List String) (hpre : ∀ q ∈ pre, (classifyWind q).isSome)
    (hp : classifyWind p = none) :
    (buildWindCases (pre ++ p :: post)).2 = some .unknownWindFile ∧
    (buildWindCases (pre ++ p :: post)).1.map WindCase.path = pre := by
  induction pre with
  | nil =>
      simp only [List.nil_append]
      rw [buildWindCases, hp]
      simp
  | cons q qs ih =>
      have hq : (classifyWind q).isSome := hpre q (List.mem_cons_self q qs)
      obtain ⟨t, ht⟩ := Option.isSome_iff_exists.mp hq
      have ih' := ih (fun r hr => hpre r (List.mem_cons_of_mem q hr))
      simp only [List.cons_append]
      rw [buildWindCases, ht]
      simpa using ih'

/-- Witness for the amended C8 at a concrete input. -/
theorem claim_C8_amended_witness :
    (∀ q ∈ ["one.bts", "two.wnd"], (classifyWind q).isSome) ∧
    classifyWind "bad.xyz" = none ∧
    ((buildWindCases (["one.bts", "two.wnd"] ++ "bad.xyz" :: ["good.hh"])).2 =
        some .unknownWindFile ∧
      (buildWindCases
          (["one.bts", "two.wnd"] ++ "bad.xyz" :: ["good.hh"])).1.map
            WindCase.path = ["one.bts", "two.wnd"]) :=
  ⟨by decide, by decide,
    claim_C8_amended ["one.bts", "two.wnd"] "bad.xyz" ["good.hh"]
      (by decide) (by decide)⟩

/-- Claim C9 counterexample: calling `run_fast` with
`steady_wind_speed=None` and `wind_files=[]` (an explicit empty list)
skips the no-wind-input check and constructs zero cases — but the function
does not complete: with zero batches the local `error` is never assigned,
and the final `if error:` raises `UnboundLocalError`. -/
theorem claim_C9_counterexample :
    resolveWindFiles (.explicitList []) (fun _ => []) "data/output" = .ok [] ∧
    buildWindCases [] = ([], none) ∧
    processOutput [] = ([], []) ∧
    completionMessage [] 20 = .error .unboundLocalError := by
  refine ⟨rfl, ?_, rfl, ?_⟩
  · rw [buildWindCases]
  · rw [completionMessage, finalErrorFlag, batched_nil]
    rfl

/-- Claim C9 (amended): with `steady_wind_speed=None` and an explicit
empty `wind_files` list, the no-wind-input check is indeed skipped (it
applies only to the directory/None branch) and zero cases, zero artifacts
and zero ingestion failures are produced — but the campaign does not
complete normally: since no batch ever runs, the completion-message step
reads the never-assigned `error` local and raises `UnboundLocalError`. -/
theorem claim_C9_amended (glob : String → List String) (output_dir : String)
    (n : ℕ) :
    resolveWindFiles (.explicitList []) glob output_dir = .ok [] ∧
    buildWindCases [] = ([], none) ∧
    runFastArtifacts [] = [] ∧
    (processOutput []).2 = [] ∧
    completionMessage [] n = .error .unboundLocalError := by
  refine ⟨rfl, ?_, rfl, rfl, ?_⟩
  · rw [buildWindCases]
  · rw [completionMessage, finalErrorFlag, batched_nil]
    rfl

/-! ## The initial-state bootstrap (`initial_state.py`).

The stepped wind profile generator (lines 52-99), the per-step analysis
windows, and the windowed-mean post-processing (lines 149-170).  Floats
are idealized as exact rationals. -/

/-- The keyword parameters of `initial_state` (with their defaults). -/
structure BootParams where
  min_speed : ℚ := 3
  max_speed : ℚ := 25
  step_size : ℚ := 2
  startup_time : ℚ := 300
  rise_time : ℚ := 30
  time_at_speed : ℚ := 120
  analyzed_fraction : ℚ := 1/4
  wind_time_step : ℚ := 1/10

/-- A per-step analysis window (`windows` entries, lines 64-70/81-87). -/
structure Window where
  v0 : ℚ
  start : ℚ
  stop : ℚ
deriving DecidableEq

/-- The loop state of the profile generator: the `time` and `speed` lists
(both initialized to `[0]`), the windows recorded so far, and the
`startup` flag. -/
structure PState where
  time : List ℚ
  speed : List ℚ
  windows : List Window
  startup : Bool

/-- `range(round(x / dt))`: the iteration count of one inner loop. -/
def iters (x dt : ℚ) : ℕ :=
  (pyRound (x / dt)).toNat

/-- The constant-speed inner loop (lines 96-99, also the startup loop,
lines 72-75): `t += dt; time.append(t); speed.append(ws)`, n times.
State: `(t, time, speed)`. -/
def holdLoop (dt ws : ℚ) : ℕ → ℚ × List ℚ × List ℚ → ℚ × List ℚ × List ℚ
  | 0, st => st
  | n + 1, (t, tl, sl) => holdLoop dt ws n (t + dt, tl ++ [t + dt], sl ++ [ws])

/-- The linear-rise inner loop (lines 89-93): `t += dt; v += inc;
time.append(t); speed.append(v)`, n times.  State: `(t, v, time, speed)`. -/
def riseLoop (dt inc : ℚ) :
    ℕ → ℚ × ℚ × List ℚ × List ℚ → ℚ × ℚ × List ℚ × List ℚ
  | 0, st => st
  | n + 1, (t, v, tl, sl) =>
      riseLoop dt inc n (t + dt, v + inc, tl ++ [t + dt], sl ++ [v + inc])

/-- One iteration of the `for wind_step in wind_steps` loop (lines
57-99): reads `t = time[-1]` and `v_0 = speed[-1]`, records the step's
analysis window, then extends the profile by the startup hold or the
linear rise, followed by the constant-speed dwell. -/
def bootStep (p : BootParams) (st : PState) (ws : ℚ) : PState :=
  let t := st.time.getLastD 0
  let v0 := st.speed.getLastD 0
  if st.startup then
    let r1 := holdLoop p.wind_time_step ws
      (iters p.startup_time p.wind_time_step) (t, st.time, st.speed)
    let r2 := holdLoop p.wind_time_step ws
      (iters p.time_at_speed p.wind_time_step) r1
    ⟨r2.2.1, r2.2.2,
      st.windows ++
        [⟨ws, p.startup_time + p.time_at_speed * (1 - p.analyzed_fraction),
          p.startup_time + p.time_at_speed⟩],
      false⟩
  else
    let r1 := riseLoop p.wind_time_step
      ((ws - v0) / p.rise_time * p.wind_time_step)
      (iters p.rise_time p.wind_time_step) (t, v0, st.time, st.speed)
    let r2 := holdLoop p.wind_time_step ws
      (iters p.time_at_speed p.wind_time_step) (r1.1, r1.2.2.1, r1.2.2.2)
    ⟨r2.2.1, r2.2.2,
      st.windows ++
        [⟨ws, t + p.rise_time + p.time_at_speed * (1 - p.analyzed_fraction),
          t + p.rise_time + p.time_at_speed⟩],
      st.startup⟩

/-- `wind_steps = np.arange(min_speed, max_speed + step_size, step_size)`
(line 52). -/
def windSteps (p : BootParams) : List ℚ :=
  arange p.min_speed (p.max_speed + p.step_size) p.step_size

/-- The profile generator's final state. -/
def bootRun (p : BootParams) : PState :=
  (windSteps p).foldl (bootStep p) ⟨[0], [0], [], true⟩

/-- The recorded analysis windows of the bootstrap. -/
def bootstrapWindows (p : BootParams) : List Window :=
  (bootRun p).windows

/-- One sample of the bootstrap run's normalized result time series
(the channels read in lines 154-167). -/
structure Sample where
  time : ℚ
  pitch : ℚ
  rot_speed : ℚ
  oopDefl1 : ℚ
  ipDefl1 : ℚ
  ttDspFA : ℚ
  ttDspSS : ℚ

/-- `polars` column mean: `null` on an empty column. -/
def listMean (l : List ℚ) : Option ℚ :=
  if l.length = 0 then none else some (l.sum / l.length)

/-- One row of the initial-state table (lines 158-168). -/
structure TableRow where
  v0 : ℚ
  pitch : Option ℚ
  rot_speed : Option ℚ
  oopDefl : Option ℚ
  ipDefl : Option ℚ
  ttDspFA : Option ℚ
  ttDspSS : Option ℚ

/-- `res.filter(col("time") >= window["start"], col("time") < window["end"])`
(lines 154-156). -/
def windowFilter (res : List Sample) (w : Window) : List Sample :=
  res.filter (fun s => decide (w.start ≤ s.time) && decide (s.time < w.stop))

/-- The initial-state table assembled from the windows and the run's
result series (lines 152-170): one row per window, keyed by the window's
wind speed, each channel the windowed arithmetic mean. -/
def initialStateTable (windows : List Window) (res : List Sample) :
    List TableRow :=
  windows.map (fun w =>
    let wr := windowFilter res w
    ⟨w.v0, listMean (wr.map (fun s => s.pitch)),
      listMean (wr.map (fun s => s.rot_speed)),
      listMean (wr.map (fun s => s.oopDefl1)),
      listMean (wr.map (fun s => s.ipDefl1)),
      listMean (wr.map (fun s => s.ttDspFA)),
      listMean (wr.map (fun s => s.ttDspSS))⟩)

theorem holdLoop_fst (dt ws : ℚ) (n : ℕ) (st : ℚ × List ℚ × List ℚ) :
    (holdLoop dt ws n st).1 = st.1 + n * dt := by
  induction n generalizing st with
  | zero => simp [holdLoop]
  | succ n ih =>
      obtain ⟨t, tl, sl⟩ := st
      rw [holdLoop, ih]
      push_cast
      ring

theorem holdLoop_time_last (dt ws : ℚ) (n : ℕ) (st : ℚ × List ℚ × List ℚ)
    (h : st.2.1.getLastD 0 = st.1) :
    ((holdLoop dt ws n st).2.1).getLastD 0 = (holdLoop dt ws n st).1 := by
  induction n generalizing st with
  | zero => simpa [holdLoop] using h
  | succ n ih =>
      obtain ⟨t, tl, sl⟩ := st
      rw [holdLoop]
      exact ih _ (by simp)

theorem riseLoop_fst (dt inc : ℚ) (n : ℕ) (st : ℚ × ℚ × List ℚ × List ℚ) :
    (riseLoop dt inc n st).1 = st.1 + n * dt := by
  induction n generalizing st with
  | zero => simp [riseLoop]
  | succ n ih =>
      obtain ⟨t, v, tl, sl⟩ := st
      rw [riseLoop, ih]
      push_cast
      ring

theorem riseLoop_time_last (dt inc : ℚ) (n : ℕ)
    (st : ℚ × ℚ × List ℚ × List ℚ) (h : st.2.2.1.getLastD 0 = st.1) :
    ((riseLoop dt inc n st).2.2.1).getLastD 0 = (riseLoop dt inc n st).1 := by
  induction n generalizing st with
  | zero => simpa [riseLoop] using h
  | succ n ih =>
      obtain ⟨t, v, tl, sl⟩ := st
      rw [riseLoop]
      exact ih _ (by simp)

/-- Each `for wind_step` iteration appends exactly one analysis window:
during startup it is placed at the tail of the startup dwell, afterwards
at the tail of the dwell following the rise, both relative to the current
profile end time `t = time[-1]`. -/
theorem bootStep_windows (p : BootParams) (st : PState) (ws : ℚ) :
    (bootStep p st ws).windows =
      st.windows ++
        [if st.startup then
          ⟨ws, p.startup_time + p.time_at_speed * (1 - p.analyzed_fraction),
            p.startup_time + p.time_at_speed⟩
        else
          ⟨ws, st.time.getLastD 0 + p.rise_time +
              p.time_at_speed * (1 - p.analyzed_fraction),
            st.time.getLastD 0 + p.rise_time + p.time_at_speed⟩] := by
  cases h : st.startup <;> simp [bootStep, h]

theorem bootStep_startup (p : BootParams) (st : PState) (ws : ℚ) :
    (bootStep p st ws).startup = false := by
  cases h : st.startup <;> simp [bootStep, h]

/-- The profile end time advances by one startup-or-rise loop plus one
dwell loop per step. -/
theorem bootStep_time_last (p : BootParams) (st : PState) (ws : ℚ) :
    (bootStep p st ws).time.getLastD 0 =
      st.time.getLastD 0 +
        (if st.startup then (iters p.startup_time p.wind_time_step : ℚ)
          else (iters p.rise_time p.wind_time_step : ℚ)) * p.wind_time_step +
        (iters p.time_at_speed p.wind_time_step : ℚ) * p.wind_time_step := by
  cases h : st.startup
  · simp only [bootStep, h, Bool.false_eq_true, if_false]
    have h1 := riseLoop_time_last p.wind_time_step
      ((ws - st.speed.getLastD 0) / p.rise_time * p.wind_time_step)
      (iters p.rise_time p.wind_time_step)
      (st.time.getLastD 0, st.speed.getLastD 0, st.time, st.speed) rfl
    have h2 := holdLoop_time_last p.wind_time_step ws
      (iters p.time_at_speed p.wind_time_step)
      ((riseLoop p.wind_time_step
          ((ws - st.speed.getLastD 0) / p.rise_time * p.wind_time_step)
          (iters p.rise_time p.wind_time_step)
          (st.time.getLastD 0, st.speed.getLastD 0, st.time, st.speed)).1,
        (riseLoop p.wind_time_step
          ((ws - st.speed.getLastD 0) / p.rise_time * p.wind_time_step)
          (iters p.rise_time p.wind_time_step)
          (st.time.getLastD 0, st.speed.getLastD 0, st.time, st.speed)).2.2.1,
        (riseLoop p.wind_time_step
          ((ws - st.speed.getLastD 0) / p.rise_time * p.wind_time_step)
          (iters p.rise_time p.wind_time_step)
          (st.time.getLastD 0, st.speed.getLastD 0, st.time, st.speed)).2.2.2)
      h1
    rw [h2, holdLoop_fst, riseLoop_fst]
  · simp only [bootStep, h, if_true]
    have h1 := holdLoop_time_last p.wind_time_step ws
      (iters p.startup_time p.wind_time_step)
      (st.time.getLastD 0, st.time, st.speed) rfl
    have h2 := holdLoop_time_last p.wind_time_step ws
      (iters p.time_at_speed p.wind_time_step)
      (holdLoop p.wind_time_step ws (iters p.startup_time p.wind_time_step)
        (st.time.getLastD 0, st.time, st.speed)) h1
    rw [h2, holdLoop_fst, holdLoop_fst]

/-- The parameters of the C5 scenario: steps [3, 5, 7] (min 3, max 7,
step 2), startup 300 s, rise 30 s, dwell 120 s, analyzed fraction 0.25,
wind time step 0.1 s. -/
def bootParamsC5 : BootParams :=
  ⟨3, 7, 2, 300, 30, 120, 1/4, 1/10⟩

theorem windSteps_C5 : windSteps bootParamsC5 = [3, 5, 7] := by
  rw [windSteps, arange]
  have hc : ⌈((bootParamsC5.max_speed + bootParamsC5.step_size) -
      bootParamsC5.min_speed) / bootParamsC5.step_size⌉ = 3 := by
    rw [Int.ceil_eq_iff]
    norm_num [bootParamsC5]
  rw [hc]
  have ht : (3 : ℤ).toNat = 3 := by decide
  rw [ht]
  simp [List.range_succ, bootParamsC5]
  norm_num

theorem iters_C5_startup :
    iters bootParamsC5.startup_time bootParamsC5.wind_time_step = 3000 := by
  show ((pyRound (bootParamsC5.startup_time / bootParamsC5.wind_time_step)).toNat = 3000)
  have h : pyRound (bootParamsC5.startup_time / bootParamsC5.wind_time_step) = 3000 := by
    norm_num [pyRound, bootParamsC5]
  rw [h]
  decide

theorem iters_C5_rise :
    iters bootParamsC5.rise_time bootParamsC5.wind_time_step = 300 := by
  show ((pyRound (bootParamsC5.rise_time / bootParamsC5.wind_time_step)).toNat = 300)
  have h : pyRound (bootParamsC5.rise_time / bootParamsC5.wind_time_step) = 300 := by
    norm_num [pyRound, bootParamsC5]
  rw [h]
  decide

theorem iters_C5_dwell :
    iters bootParamsC5.time_at_speed bootParamsC5.wind_time_step = 1200 := by
  show ((pyRound (bootParamsC5.time_at_speed / bootParamsC5.wind_time_step)).toNat = 1200)
  have h : pyRound (bootParamsC5.time_at_speed / bootParamsC5.wind_time_step) = 1200 := by
    norm_num [pyRound, bootParamsC5]
  rw [h]
  decide

theorem bootC5_step1_time :
    (bootStep bootParamsC5 ⟨[0], [0], [], true⟩ 3).time.getLastD 0 = 420 := by
  rw [bootStep_time_last, iters_C5_startup, iters_C5_dwell]
  norm_num [bootParamsC5]

theorem bootC5_step1_startup :
    (bootStep bootParamsC5 ⟨[0], [0], [], true⟩ 3).startup = false :=
  bootStep_startup ..

theorem bootC5_step1_windows :
    (bootStep bootParamsC5 ⟨[0], [0], [], true⟩ 3).windows =
      [⟨3, 390, 420⟩] := by
  rw [bootStep_windows]
  norm_num [bootParamsC5]

theorem bootC5_step2_time :
    (bootStep bootParamsC5 (bootStep bootParamsC5 ⟨[0], [0], [], true⟩ 3)
      5).time.getLastD 0 = 570 := by
  rw [bootStep_time_last, bootC5_step1_startup, bootC5_step1_time,
    iters_C5_rise, iters_C5_dwell]
  norm_num [bootParamsC5]

theorem bootC5_step2_startup :
    (bootStep bootParamsC5 (bootStep bootParamsC5 ⟨[0], [0], [], true⟩ 3)
      5).startup = false :=
  bootStep_startup ..

theorem bootC5_step2_windows :
    (bootStep bootParamsC5 (bootStep bootParamsC5 ⟨[0], [0], [], true⟩ 3)
      5).windows = [⟨3, 390, 420⟩, ⟨5, 540, 570⟩] := by
  rw [bootStep_windows, bootC5_step1_startup, bootC5_step1_windows,
    bootC5_step1_time]
  norm_num [bootParamsC5]

theorem bootC5_step3_time :
    (bootStep bootParamsC5 (bootStep bootParamsC5
      (bootStep bootParamsC5 ⟨[0], [0], [], true⟩ 3) 5) 7).time.getLastD 0 =
      720 := by
  rw [bootStep_time_last, bootC5_step2_startup, bootC5_step2_time,
    iters_C5_rise, iters_C5_dwell]
  norm_num [bootParamsC5]

theorem bootC5_step3_windows :
    (bootStep bootParamsC5 (bootStep bootParamsC5
      (bootStep bootParamsC5 ⟨[0], [0], [], true⟩ 3) 5) 7).windows =
      [⟨3, 390, 420⟩, ⟨5, 540, 570⟩, ⟨7, 690, 720⟩] := by
  rw [bootStep_windows, bootC5_step2_startup, bootC5_step2_windows,
    bootC5_step2_time]
  norm_num [bootParamsC5]

theorem bootstrapWindows_C5 :
    bootstrapWindows bootParamsC5 =
      [⟨3, 390, 420⟩, ⟨5, 540, 570⟩, ⟨7, 690, 720⟩] := by
  rw [bootstrapWindows, bootRun, windSteps_C5]
  simpa only [List.foldl] using bootC5_step3_windows

/-- Claim C5: for the bootstrap invoked with steps [3, 5, 7] m/s,
startup_time = 300 s, rise_time = 30 s, time_at_speed = 120 s and
analyzed_fraction = 0.25, each step's analysis window has length exactly
30 s and is positioned at the tail of that step's dwell period (its end
coincides with the profile end time after that step, i.e. with the end of
the dwell), and the resulting InitialStateTable has exactly 3 rows keyed
by wind speeds 3, 5 and 7. -/
theorem claim_C5_bootstrap_scenario :
    windSteps bootParamsC5 = [3, 5, 7] ∧
    bootstrapWindows bootParamsC5 =
      [⟨3, 390, 420⟩, ⟨5, 540, 570⟩, ⟨7, 690, 720⟩] ∧
    (∀ w ∈ bootstrapWindows bootParamsC5, w.stop - w.start = 30) ∧
    (((windSteps bootParamsC5).take 1).foldl (bootStep bootParamsC5)
      ⟨[0], [0], [], true⟩).time.getLastD 0 = 420 ∧
    (((windSteps bootParamsC5).take 2).foldl (bootStep bootParamsC5)
      ⟨[0], [0], [], true⟩).time.getLastD 0 = 570 ∧
    (((windSteps bootParamsC5).take 3).foldl (bootStep bootParamsC5)
      ⟨[0], [0], [], true⟩).time.getLastD 0 = 720 ∧
    ∀ res : List Sample,
      (initialStateTable (bootstrapWindows bootParamsC5) res).map
          TableRow.v0 = [3, 5, 7] ∧
      (initialStateTable (bootstrapWindows bootParamsC5) res).length = 3 := by
  refine ⟨windSteps_C5, bootstrapWindows_C5, ?_, ?_, ?_, ?_, ?_⟩
  · intro w hw
    rw [bootstrapWindows_C5] at hw
    simp only [List.mem_cons, List.not_mem_nil, or_false] at hw
    rcases hw with rfl | rfl | rfl <;> norm_num
  · rw [windSteps_C5]
    simpa only [List.take, List.foldl] using bootC5_step1_time
  · rw [windSteps_C5]
    simpa only [List.take, List.foldl] using bootC5_step2_time
  · rw [windSteps_C5]
    simpa only [List.take, List.foldl] using bootC5_step3_time
  · intro res
    rw [bootstrapWindows_C5]
    constructor
    · simp [initialStateTable]
    · simp [initialStateTable]

/-! ## The bootstrap's error behavior (`initial_state.py`, lines 116-170).

`initial_state` synthesizes the step wind file in a freshly cleaned
`simdriver_temp` directory, runs `run_fast` on the single case
`step_wind`, and then unconditionally does
`pl.read_parquet("simdriver_temp/step_wind.parquet")`.  The parquet
artifact exists iff `run_fast`'s ingestion step managed to load the run's
`.outb` output; no exit code is ever inspected. -/

/-- The error with which the bootstrap aborts. -/
inductive BootstrapErr where
  | parquetReadFailed
deriving DecidableEq

/-- The bootstrap's control flow after generating the profile: run the
single `step_wind` case through `run_fast` (with the given external
outcome), then read the parquet artifact and assemble the table from the
windows. -/
def initialStateModel (exitCode : ℤ) (parsed : Option (List String))
    (series : List Sample) (p : BootParams) :
    Except BootstrapErr (List TableRow) :=
  let arts := runFastArtifacts [⟨"step_wind", exitCode, parsed⟩]
  if "step_wind" ∈ arts then
    .ok (initialStateTable (bootstrapWindows p) series)
  else .error .parquetReadFailed

/-- Claim C3 counterexample: the bootstrap run's process exits with code
1 (non-zero), yet — because the run still left a loadable `.outb` output —
the bootstrap succeeds and builds the InitialStateTable from that run's
output.  No `BootstrapSimulationFailed` condition exists in the code. -/
theorem claim_C3_counterexample :
    (1 : ℤ) ≠ 0 ∧
    (initialStateModel 1 (some ["RotSpeed_[rpm]"]) [] {}).isOk = true :=
  ⟨by decide, rfl⟩

/-- Claim C3 (amended): the bootstrap never inspects the run's exit code
and raises no dedicated `BootstrapSimulationFailed` condition.  It fails
— with a file-read error on the missing parquet artifact — exactly when
the run's output could not be ingested; whenever the output is ingestable
it proceeds to build the InitialStateTable from it, non-zero exit code or
not.  The non-zero exit is reflected only in `run_fast`'s batch error
flag (and hence its printed message). -/
theorem claim_C3_amended (exitCode : ℤ) (series : List Sample)
    (p : BootParams) (cols : List String) :
    initialStateModel exitCode none series p = .error .parquetReadFailed ∧
    initialStateModel exitCode (some cols) series p =
      .ok (initialStateTable (bootstrapWindows p) series) ∧
    finalErrorFlag [⟨"step_wind", exitCode, some cols⟩] 20 =
      some (exitCode != 0) := by
  refine ⟨rfl, rfl, ?_⟩
  have hb : batched 20 [(⟨"step_wind", exitCode, some cols⟩ : CaseOutcome)] =
      [[⟨"step_wind", exitCode, some cols⟩]] := by
    simp [batched_cons, batched_nil]
  rw [finalErrorFlag, hb]
  simp [batchError]

/-- Each `bootStep` appends exactly one window, keyed by the step's wind
speed; hence the windows' keys are exactly `wind_steps`. -/
theorem bootWindows_v0_aux (p : BootParams) (l : List ℚ) :
    ∀ st : PState,
      ((l.foldl (bootStep p) st).windows).map Window.v0 =
        st.windows.map Window.v0 ++ l := by
  induction l with
  | nil => intro st; simp
  | cons x xs ih =>
      intro st
      rw [List.foldl_cons, ih, bootStep_windows]
      simp only [List.map_append, List.map_cons, List.map_nil, apply_ite Window.v0]
      simp

/-- The initial-state table's wind-speed keys are exactly `wind_steps`. -/
theorem initialStateTable_keys (p : BootParams) (res : List Sample) :
    (initialStateTable (bootstrapWindows p) res).map TableRow.v0 =
      windSteps p := by
  have h : (initialStateTable (bootstrapWindows p) res).map TableRow.v0 =
      (bootstrapWindows p).map Window.v0 := by
    simp [initialStateTable, List.map_map]
  rw [h, bootstrapWindows, bootRun, bootWindows_v0_aux]
  simp

/-- Claim C10: the bootstrap's wind-speed step sequence is the arithmetic
progression `min_speed, min_speed + step_size, ...` strictly below
`max_speed + step_size`, so when `max_speed - min_speed` is not an
integer multiple of `step_size` the final step — and hence the largest
InitialStateTable key — strictly exceeds `max_speed`. -/
theorem claim_C10_windsteps_overshoot (p : BootParams)
    (hstep : 0 < p.step_size) (hle : p.min_speed ≤ p.max_speed)
    (hnd : ∀ k : ℕ, p.max_speed - p.min_speed ≠ k * p.step_size) :
    (∃ n : ℕ, 0 < n ∧
      windSteps p =
        (List.range n).map
          (fun (k : ℕ) => p.min_speed + (k : ℚ) * p.step_size)) ∧
    (∀ x ∈ windSteps p, x < p.max_speed + p.step_size) ∧
    p.max_speed < (windSteps p).getLastD 0 ∧
    ∀ res, (initialStateTable (bootstrapWindows p) res).map TableRow.v0 =
      windSteps p := by
  have hsne : p.step_size ≠ 0 := ne_of_gt hstep
  set q : ℚ := (p.max_speed - p.min_speed) / p.step_size with hqdef
  have hqstep : q * p.step_size = p.max_speed - p.min_speed :=
    div_mul_cancel₀ _ hsne
  have hq0 : 0 ≤ q := div_nonneg (by linarith) (le_of_lt hstep)
  have hceil0 : 0 ≤ ⌈q⌉ := Int.ceil_nonneg hq0
  have harg : (p.max_speed + p.step_size - p.min_speed) / p.step_size =
      q + 1 := by
    rw [hqdef]
    field_simp
    ring
  have hceil : ⌈(p.max_speed + p.step_size - p.min_speed) / p.step_size⌉ =
      ⌈q⌉ + 1 := by
    rw [harg]
    exact_mod_cast Int.ceil_add_one q
  set m : ℕ := ⌈q⌉.toNat with hmdef
  have hmz : (m : ℤ) = ⌈q⌉ := Int.toNat_of_nonneg hceil0
  have hmq : (m : ℚ) = (⌈q⌉ : ℚ) := by exact_mod_cast hmz
  have hn : (⌈(p.max_speed + p.step_size - p.min_speed) / p.step_size⌉).toNat
      = m + 1 := by
    rw [hceil]
    omega
  have hws : windSteps p =
      (List.range (m + 1)).map
        (fun (k : ℕ) => p.min_speed + (k : ℚ) * p.step_size) := by
    rw [windSteps, arange, hn]
  have hqlt : q < (m : ℚ) := by
    rw [hmq]
    rcases lt_or_eq_of_le (Int.le_ceil q) with h | h
    · exact h
    · exfalso
      apply hnd m
      rw [← hqstep]
      rw [hmq, ← h]
  refine ⟨⟨m + 1, by omega, hws⟩, ?_, ?_, fun res => initialStateTable_keys p res⟩
  · intro x hx
    rw [hws] at hx
    obtain ⟨k, hk, hkx⟩ := List.mem_map.mp hx
    have hkm : (k : ℚ) ≤ (m : ℚ) := by
      exact_mod_cast Nat.lt_succ_iff.mp (List.mem_range.mp hk)
    have hkq : (k : ℚ) < q + 1 := by
      calc (k : ℚ) ≤ (m : ℚ) := hkm
        _ = (⌈q⌉ : ℚ) := hmq
        _ < q + 1 := Int.ceil_lt_add_one q
    have : p.min_speed + (k : ℚ) * p.step_size <
        p.min_speed + (q + 1) * p.step_size := by
      have := mul_lt_mul_of_pos_right hkq hstep
      linarith
    rw [← hkx] at *
    have hq1 : (q + 1) * p.step_size = p.max_speed + p.step_size - p.min_speed := by
      rw [add_mul, hqstep]
      ring
    linarith [this, hq1]
  · rw [hws, List.range_succ, List.map_append]
    simp only [List.map_cons, List.map_nil]
    rw [List.getLastD_concat]
    have := mul_lt_mul_of_pos_right hqlt hstep
    rw [hqstep] at this
    linarith

/-- The C10 example parameters: min 3, max 6, step 2 (other fields the
source defaults). -/
def bootParamsC10 : BootParams :=
  ⟨3, 6, 2, 300, 30, 120, 1/4, 1/10⟩

theorem windSteps_C10 : windSteps bootParamsC10 = [3, 5, 7] := by
  rw [windSteps, arange]
  have hc : ⌈((bootParamsC10.max_speed + bootParamsC10.step_size) -
      bootParamsC10.min_speed) / bootParamsC10.step_size⌉ = 3 := by
    rw [Int.ceil_eq_iff]
    norm_num [bootParamsC10]
  rw [hc]
  have ht : (3 : ℤ).toNat = 3 := by decide
  rw [ht]
  simp [List.range_succ, bootParamsC10]
  norm_num

theorem bootParamsC10_not_multiple :
    ∀ k : ℕ, bootParamsC10.max_speed - bootParamsC10.min_speed ≠
      k * bootParamsC10.step_size := by
  intro k h
  norm_num [bootParamsC10] at h
  have h2 : ((2 * k : ℕ) : ℚ) = 3 := by
    push_cast
    linarith
  have h3 : 2 * k = 3 := by exact_mod_cast h2
  omega

/-- Witness for C10 at min 3, max 6, step 2: the steps are [3, 5, 7] and
the largest key, 7, strictly exceeds the maximum speed 6. -/
theorem claim_C10_windsteps_overshoot_witness :
    (0 < bootParamsC10.step_size ∧
      bootParamsC10.min_speed ≤ bootParamsC10.max_speed ∧
      (∀ k : ℕ, bootParamsC10.max_speed - bootParamsC10.min_speed ≠
        k * bootParamsC10.step_size)) ∧
    windSteps bootParamsC10 = [3, 5, 7] ∧
    ((∃ n : ℕ, 0 < n ∧
      windSteps bootParamsC10 =
        (List.range n).map
          (fun (k : ℕ) => bootParamsC10.min_speed +
            (k : ℚ) * bootParamsC10.step_size)) ∧
    (∀ x ∈ windSteps bootParamsC10,
      x < bootParamsC10.max_speed + bootParamsC10.step_size) ∧
    bootParamsC10.max_speed < (windSteps bootParamsC10).getLastD 0 ∧
    ∀ res,
      (initialStateTable (bootstrapWindows bootParamsC10) res).map
        TableRow.v0 = windSteps bootParamsC10) :=
  ⟨⟨by norm_num [bootParamsC10], by norm_num [bootParamsC10],
      bootParamsC10_not_multiple⟩,
    windSteps_C10,
    claim_C10_windsteps_overshoot bootParamsC10 (by norm_num [bootParamsC10])
      (by norm_num [bootParamsC10]) bootParamsC10_not_multiple⟩

/-! ## Initial-condition interpolation (`run_fast.py`, lines 312-333).

Per case, the ElastoDyn initial conditions are seeded with
`np.interp(v0_init, init_state["v0"], init_state["channel"])`.  We model
`numpy.interp` for an increasing key column by its documented semantics:
piecewise-linear interpolation, clamped to the boundary values outside
the key range, raising only on an empty table. -/

/-- The scan underlying `np.interp` on `(x0, y0)` followed by the
remaining table rows. -/
def interpGo (x : ℚ) : ℚ → ℚ → List (ℚ × ℚ) → ℚ
  | _, y0, [] => y0
  | x0, y0, (x1, y1) :: rest =>
      if x ≤ x0 then y0
      else if x ≤ x1 then y0 + (y1 - y0) * (x - x0) / (x1 - x0)
      else interpGo x x1 y1 rest

/-- Model of `np.interp` over a table of `(key, value)` rows: `none` on an
empty table (numpy raises), otherwise total. -/
def npInterp (x : ℚ) (tbl : List (ℚ × ℚ)) : Option ℚ :=
  match tbl with
  | [] => none
  | (x0, y0) :: rest => some (interpGo x x0 y0 rest)

theorem interpGo_below (x x0 y0 : ℚ) (rest : List (ℚ × ℚ)) (h : x ≤ x0) :
    interpGo x x0 y0 rest = y0 := by
  cases rest with
  | nil => rfl
  | cons r rs =>
      obtain ⟨x1, y1⟩ := r
      rw [interpGo, if_pos h]

theorem chain_fst_head_le_last :
    ∀ (a : ℚ × ℚ) (l : List (ℚ × ℚ)),
      List.Chain' (fun r s => r.1 < s.1) (a :: l) →
      a.1 ≤ ((a :: l).getLast (by simp)).1
  | _, [], _ => le_refl _
  | a, b :: l, h => by
      rw [List.getLast_cons (by simp)]
      have h1 : a.1 < b.1 := (List.chain'_cons.mp h).1
      have h2 := chain_fst_head_le_last b l (List.chain'_cons.mp h).2
      exact le_of_lt (lt_of_lt_of_le h1 h2)

theorem interpGo_above (x : ℚ) :
    ∀ (x0 y0 : ℚ) (rest : List (ℚ × ℚ)),
      List.Chain' (fun r s => r.1 < s.1) ((x0, y0) :: rest) →
      (((x0, y0) :: rest).getLast (by simp)).1 < x →
      interpGo x x0 y0 rest = (((x0, y0) :: rest).getLast (by simp)).2
  | x0, y0, [], _, _ => rfl
  | x0, y0, (x1, y1) :: rest, hch, hx => by
      have h01 : x0 < x1 := (List.chain'_cons.mp hch).1
      rw [List.getLast_cons (by simp)] at hx ⊢
      have hx1 : x1 ≤ (((x1, y1) :: rest).getLast (by simp)).1 :=
        chain_fst_head_le_last (x1, y1) rest (List.chain'_cons.mp hch).2
      have hx1x : x1 < x := lt_of_le_of_lt hx1 hx
      have hx0x : x0 < x := lt_trans h01 hx1x
      rw [interpGo, if_neg (not_le.mpr hx0x), if_neg (not_le.mpr hx1x)]
      exact interpGo_above x x1 y1 rest (List.chain'_cons.mp hch).2 hx

/-- Claim C6: for every InitialStateTable with at least one row (keys
increasing, as the bootstrap produces them) and every query wind speed
below the table's minimum key or above its maximum key, the interpolation
used to seed a case's initial condition returns the corresponding
boundary row's channel value (clamped linear interpolation) and never
raises an error. -/
theorem claim_C6_interp_clamped (tbl : List (ℚ × ℚ)) (hne : tbl ≠ [])
    (hsorted : tbl.Chain' (fun r s => r.1 < s.1)) (x : ℚ) :
    (npInterp x tbl).isSome = true ∧
    (x < (tbl.head hne).1 → npInterp x tbl = some (tbl.head hne).2) ∧
    ((tbl.getLast hne).1 < x → npInterp x tbl = some (tbl.getLast hne).2) := by
  obtain ⟨⟨x0, y0⟩, rest, rfl⟩ := List.exists_cons_of_ne_nil hne
  refine ⟨rfl, ?_, ?_⟩
  · intro hx
    rw [npInterp, interpGo_below x x0 y0 rest (le_of_lt hx)]
    rfl
  · intro hx
    rw [npInterp, interpGo_above x x0 y0 rest hsorted hx]

/-- Witness for C6 at a concrete two-row table, queried above the maximum
key: the last row's value is returned. -/
theorem claim_C6_interp_clamped_witness :
    (([(3, 10), (5, 20)] : List (ℚ × ℚ)) ≠ [] ∧
      List.Chain' (fun (r s : ℚ × ℚ) => r.1 < s.1) [(3, 10), (5, 20)] ∧
      (([(3, 10), (5, 20)] : List (ℚ × ℚ)).getLast (by simp)).1 < 9) ∧
    npInterp 9 [(3, 10), (5, 20)] = some 20 := by
  have h := claim_C6_interp_clamped [((3 : ℚ), (10 : ℚ)), (5, 20)] (by simp)
    (by norm_num [List.chain'_cons]) 9
  exact ⟨⟨by simp, by norm_num [List.chain'_cons], by norm_num⟩,
    h.2.2 (by norm_num)⟩

/-! ## TurbSim case generation (`run_turbsim.py`, lines 98-134).

Case ids are f-strings `U_{u:05.2f}_TI_{ti:05.2f}` (optionally
`_C_{i:02d}`) with `.` replaced by `d`.  We model `%05.2f` on exact
rationals: round half-even to hundredths, render with two decimals, pad
with leading zeros to width 5. -/

/-- The decimal digit character for `d`. -/
def digitChar (d : ℕ) : Char := Char.ofNat (48 + d)

/-- Decimal digits of a natural number (fuel-based, `fuel > n`). -/
def natCharsAux : ℕ → ℕ → List Char
  | 0, _ => []
  | fuel + 1, n =>
      if n < 10 then [digitChar n]
      else natCharsAux fuel (n / 10) ++ [digitChar (n % 10)]

/-- Decimal digits of a natural number, most significant first. -/
def natChars (n : ℕ) : List Char := natCharsAux (n + 1) n

/-- Reads a digit string back as a number (inverse of `natChars`). -/
def charsVal (l : List Char) : ℕ :=
  l.foldl (fun acc c => acc * 10 + (c.toNat - 48)) 0

/-- Python `f"{i:02d}"`: zero-padded to width 2. -/
def pad2 (i : ℕ) : List Char :=
  if i < 10 then '0' :: natChars i else natChars i

/-- The integer-part digits of `%05.2f` (of the value rounded to
hundredths). -/
def fmtIntPart (q : ℚ) : List Char :=
  natChars ((pyRound (q * 100)).natAbs / 100)

/-- The two fractional digits of `%05.2f`. -/
def fmtFracPart (q : ℚ) : List Char :=
  pad2 ((pyRound (q * 100)).natAbs % 100)

/-- `%05.2f` body, with the decimal point already replaced by `d`
(the `.replace(".", "d")` of the id). -/
def fmtCore (q : ℚ) : List Char :=
  fmtIntPart q ++ 'd' :: fmtFracPart q

/-- The sign of `%05.2f`. -/
def fmtSign (q : ℚ) : List Char :=
  if pyRound (q * 100) < 0 then ['-'] else []

/-- Python `f"{float(q):05.2f}".replace(".", "d")` on exact rationals:
round half-even to hundredths, two decimals, left zero-padding to total
width 5 (after the sign). -/
def fmtChars (q : ℚ) : List Char :=
  fmtSign q ++
    List.replicate (5 - ((fmtCore q).length + (fmtSign q).length)) '0' ++
    fmtCore q

/-- The characters of one case id (`run_turbsim.py` lines 126-131). -/
def caseIdChars (u ti : ℚ) (rep : Option ℕ) : List Char :=
  match rep with
  | none => 'U' :: '_' :: (fmtChars u ++ '_' :: 'T' :: 'I' :: '_' :: fmtChars ti)
  | some i => 'U' :: '_' :: (fmtChars u ++ '_' :: 'T' :: 'I' :: '_' ::
      (fmtChars ti ++ '_' :: 'C' :: '_' :: pad2 i))

/-- One case id. -/
def caseId (u ti : ℚ) (rep : Option ℕ) : String := ⟨caseIdChars u ti rep⟩

/-- The ids generated for one replicate: the cross product of the wind
speeds and turbulence intensities, speeds outermost (`itertools.product`,
line 109). -/
def innerIds (us tis : List ℚ) (rep : Option ℕ) : List String :=
  us.flatMap (fun u => tis.map (fun ti => caseId u ti rep))

/-- All generated case ids (lines 111-134): one replicate per wind-field
number `i` in `range(first, first + wind_fields_per_case)`; the `_C_{i}`
suffix is attached exactly when more than one field per case is requested
or the first field number is not 1. -/
def turbsimIds (us tis : List ℚ)
    (wind_fields_per_case first_wind_field_number : ℕ) : List String :=
  (List.range' first_wind_field_number wind_fields_per_case).flatMap
    (fun i => innerIds us tis
      (if 1 < wind_fields_per_case ∨ first_wind_field_number ≠ 1 then some i
       else none))

theorem digitChar_toNat : ∀ d : ℕ, d < 10 → (digitChar d).toNat = 48 + d := by
  decide

theorem digitChar_ne_underscore : ∀ d : ℕ, d < 10 → digitChar d ≠ '_' := by
  decide

theorem charsVal_append_singleton (l : List Char) (c : Char) :
    charsVal (l ++ [c]) = charsVal l * 10 + (c.toNat - 48) := by
  rw [charsVal, List.foldl_append]
  rfl

theorem natCharsAux_val :
    ∀ fuel n : ℕ, n < fuel → charsVal (natCharsAux fuel n) = n := by
  intro fuel
  induction fuel with
  | zero => omega
  | succ fuel ih =>
      intro n hn
      rw [natCharsAux]
      by_cases h : n < 10
      · rw [if_pos h]
        show 0 * 10 + ((digitChar n).toNat - 48) = n
        rw [digitChar_toNat n h]
        omega
      · rw [if_neg h]
        rw [charsVal_append_singleton]
        have hdiv : n / 10 < fuel := by
          have h1 : n / 10 < n := Nat.div_lt_self (by omega) (by omega)
          omega
        rw [ih (n / 10) hdiv, digitChar_toNat (n % 10) (Nat.mod_lt n (by omega))]
        omega

theorem natChars_val (n : ℕ) : charsVal (natChars n) = n :=
  natCharsAux_val (n + 1) n (Nat.lt_succ_self n)

theorem charsVal_cons_zero (l : List Char) :
    charsVal ('0' :: l) = charsVal l := by
  rw [charsVal, charsVal, List.foldl_cons]
  congr 1

theorem pad2_val (i : ℕ) : charsVal (pad2 i) = i := by
  rw [pad2]
  by_cases h : i < 10
  · rw [if_pos h, charsVal_cons_zero, natChars_val]
  · rw [if_neg h, natChars_val]

theorem pad2_inj {i j : ℕ} (h : pad2 i = pad2 j) : i = j := by
  have := congrArg charsVal h
  rwa [pad2_val, pad2_val] at this

theorem natCharsAux_all_digits :
    ∀ fuel n : ℕ, ∀ c ∈ natCharsAux fuel n, ∃ d : ℕ, d < 10 ∧ c = digitChar d := by
  intro fuel
  induction fuel with
  | zero => intro n c hc; simp [natCharsAux] at hc
  | succ fuel ih =>
      intro n c hc
      rw [natCharsAux] at hc
      by_cases h : n < 10
      · rw [if_pos h] at hc
        simp at hc
        exact ⟨n, h, hc⟩
      · rw [if_neg h] at hc
        rcases List.mem_append.mp hc with h' | h'
        · exact ih (n / 10) c h'
        · simp at h'
          exact ⟨n % 10, Nat.mod_lt n (by omega), h'⟩

theorem underscore_not_mem_natChars (n : ℕ) : '_' ∉ natChars n := by
  intro h
  obtain ⟨d, hd, hc⟩ := natCharsAux_all_digits (n + 1) n '_' h
  exact digitChar_ne_underscore d hd hc.symm

theorem underscore_not_mem_pad2 (i : ℕ) : '_' ∉ pad2 i := by
  rw [pad2]
  by_cases h : i < 10
  · rw [if_pos h]
    intro hc
    rcases List.mem_cons.mp hc with h' | h'
    · exact absurd h'.symm (by decide)
    · exact underscore_not_mem_natChars i h'
  · rw [if_neg h]
    exact underscore_not_mem_natChars i

theorem underscore_not_mem_fmtChars (q : ℚ) : '_' ∉ fmtChars q := by
  rw [fmtChars]
  intro hc
  rcases List.mem_append.mp hc with h1 | h1
  · rcases List.mem_append.mp h1 with h2 | h2
    · rw [fmtSign] at h2
      by_cases h : pyRound (q * 100) < 0
      · rw [if_pos h] at h2
        simp at h2
      · rw [if_neg h] at h2
        simp at h2
    · have := List.eq_of_mem_replicate h2
      exact absurd this (by decide)
  · rw [fmtCore] at h1
    rcases List.mem_append.mp h1 with h2 | h2
    · exact underscore_not_mem_natChars _ h2
    · rcases List.mem_cons.mp h2 with h3 | h3
      · exact absurd h3 (by decide)
      · exact underscore_not_mem_pad2 _ h3

/-- Splitting at an underscore separator is unambiguous when the left
pieces contain no underscore. -/
theorem append_underscore_inj :
    ∀ {s₁ s₂ t₁ t₂ : List Char}, '_' ∉ s₁ → '_' ∉ s₂ →
      s₁ ++ '_' :: t₁ = s₂ ++ '_' :: t₂ → s₁ = s₂ ∧ t₁ = t₂ := by
  intro s₁
  induction s₁ with
  | nil =>
      intro s₂ t₁ t₂ _ h₂ h
      cases s₂ with
      | nil => simpa using h
      | cons b bs =>
          simp only [List.nil_append, List.cons_append, List.cons.injEq] at h
          exact absurd (h.1 ▸ List.mem_cons_self b bs) (h.1 ▸ h₂)
  | cons a as ih =>
      intro s₂ t₁ t₂ h₁ h₂ h
      cases s₂ with
      | nil =>
          simp only [List.cons_append, List.nil_append, List.cons.injEq] at h
          exact absurd (h.1 ▸ List.mem_cons_self a as) (h.1 ▸ h₁)
      | cons b bs =>
          simp only [List.cons_append, List.cons.injEq] at h
          have hrec := ih (fun hm => h₁ (List.mem_cons_of_mem a hm))
            (fun hm => h₂ (List.mem_cons_of_mem b hm)) h.2
          exact ⟨by rw [h.1, hrec.1], hrec.2⟩

theorem caseIdChars_inj_none {u ti u' ti' : ℚ}
    (h : caseIdChars u ti none = caseIdChars u' ti' none) :
    fmtChars u = fmtChars u' ∧ fmtChars ti = fmtChars ti' := by
  rw [caseIdChars, caseIdChars] at h
  simp only [List.cons.injEq, true_and] at h
  have := append_underscore_inj (underscore_not_mem_fmtChars u)
    (underscore_not_mem_fmtChars u') h
  refine ⟨this.1, ?_⟩
  have h2 := this.2
  simp only [List.cons.injEq, true_and] at h2
  exact h2

theorem caseIdChars_inj_some {u ti u' ti' : ℚ} {i j : ℕ}
    (h : caseIdChars u ti (some i) = caseIdChars u' ti' (some j)) :
    fmtChars u = fmtChars u' ∧ fmtChars ti = fmtChars ti' ∧ i = j := by
  rw [caseIdChars, caseIdChars] at h
  simp only [List.cons.injEq, true_and] at h
  have h1 := append_underscore_inj (underscore_not_mem_fmtChars u)
    (underscore_not_mem_fmtChars u') h
  refine ⟨h1.1, ?_⟩
  have h2 := h1.2
  simp only [List.cons.injEq, true_and] at h2
  have h3 := append_underscore_inj (underscore_not_mem_fmtChars ti)
    (underscore_not_mem_fmtChars ti') h2
  refine ⟨h3.1, ?_⟩
  have h4 := h3.2
  simp only [List.cons.injEq, true_and] at h4
  exact pad2_inj h4

theorem nodup_flatMap_of_pairwise {α β : Type} {f : α → List β} :
    ∀ {l : List α}, (∀ a ∈ l, (f a).Nodup) →
      l.Pairwise (fun a b => ∀ x ∈ f a, x ∉ f b) → (l.flatMap f).Nodup := by
  intro l
  induction l with
  | nil => intro _ _; simp
  | cons a as ih =>
      intro hall hpw
      rw [List.flatMap_cons, List.nodup_append]
      refine ⟨hall a (List.mem_cons_self a as), ih
        (fun b hb => hall b (List.mem_cons_of_mem a hb))
        (List.pairwise_cons.mp hpw).2, ?_⟩
      intro x hx hx'
      obtain ⟨b, hb, hxb⟩ := List.mem_flatMap.mp hx'
      exact (List.pairwise_cons.mp hpw).1 b hb x hx hxb

theorem caseId_inj_fmt {u ti u' ti' : ℚ} {rep : Option ℕ}
    (h : caseId u ti rep = caseId u' ti' rep) :
    fmtChars u = fmtChars u' ∧ fmtChars ti = fmtChars ti' := by
  have hd : caseIdChars u ti rep = caseIdChars u' ti' rep := by
    have := congrArg String.data h
    simpa [caseId] using this
  cases rep with
  | none => exact caseIdChars_inj_none hd
  | some i =>
      have := caseIdChars_inj_some hd
      exact ⟨this.1, this.2.1⟩

theorem innerIds_nodup (us tis : List ℚ) (rep : Option ℕ)
    (hu : us.Pairwise (fun a b => fmtChars a ≠ fmtChars b))
    (ht : tis.Pairwise (fun a b => fmtChars a ≠ fmtChars b)) :
    (innerIds us tis rep).Nodup := by
  rw [innerIds]
  apply nodup_flatMap_of_pairwise
  · intro u hu'
    refine List.Pairwise.map _ ?_ ht
    intro a b hab heq
    exact hab (caseId_inj_fmt heq).2
  · refine List.Pairwise.imp ?_ hu
    intro a b hab x hx hx'
    obtain ⟨ti, hti, rfl⟩ := List.mem_map.mp hx
    obtain ⟨ti', hti', heq⟩ := List.mem_map.mp hx'
    exact hab (caseId_inj_fmt heq.symm).1

theorem flatMap_const_length {α β : Type} (l : List α) (f : α → List β)
    (c : ℕ) (h : ∀ a ∈ l, (f a).length = c) :
    (l.flatMap f).length = l.length * c := by
  induction l with
  | nil => simp
  | cons a as ih =>
      rw [List.flatMap_cons, List.length_append, h a (List.mem_cons_self a as),
        ih (fun b hb => h b (List.mem_cons_of_mem a hb)), List.length_cons]
      ring

theorem innerIds_length (us tis : List ℚ) (rep : Option ℕ) :
    (innerIds us tis rep).length = us.length * tis.length := by
  rw [innerIds]
  exact flatMap_const_length us _ tis.length (fun u _ => by simp)

/-- Claim C4 (amended): for every supplied wind-speed list and
turbulence-intensity list, case generation produces exactly
`len(speeds) * len(intensities)` cases per replicate; the generated case
ids are pairwise distinct provided the two-decimal `%05.2f` formatting is
injective on the speed list and on the intensity list (in particular they
collide when the lists contain duplicates, or entries that agree after
rounding to two decimals). -/
theorem claim_C4_amended (us tis : List ℚ) (reps first : ℕ)
    (hu : (us.map fmtChars).Nodup) (ht : (tis.map fmtChars).Nodup) :
    (turbsimIds us tis reps first).length =
      reps * (us.length * tis.length) ∧
    (turbsimIds us tis reps first).Nodup := by
  have hu' : us.Pairwise (fun a b => fmtChars a ≠ fmtChars b) :=
    List.pairwise_map.mp hu
  have ht' : tis.Pairwise (fun a b => fmtChars a ≠ fmtChars b) :=
    List.pairwise_map.mp ht
  constructor
  · rw [turbsimIds, flatMap_const_length _ _ (us.length * tis.length)
      (fun i _ => innerIds_length us tis _)]
    rw [List.length_range']
  · by_cases hc : 1 < reps ∨ first ≠ 1
    · rw [turbsimIds]
      simp only [if_pos hc]
      apply nodup_flatMap_of_pairwise
      · intro i _
        exact innerIds_nodup us tis (some i) hu' ht'
      · refine List.Pairwise.imp ?_ (List.nodup_range' (n := reps) (s := first))
        intro i j hij x hx hx'
        obtain ⟨u, hu2, hti⟩ := List.mem_flatMap.mp hx
        obtain ⟨ti, hti2, rfl⟩ := List.mem_map.mp hti
        obtain ⟨u', hu2', hti'⟩ := List.mem_flatMap.mp hx'
        obtain ⟨ti', hti2', heq⟩ := List.mem_map.mp hti'
        have hd : caseIdChars u' ti' (some j) = caseIdChars u ti (some i) := by
          have := congrArg String.data heq
          simpa [caseId] using this
        exact hij (caseIdChars_inj_some hd).2.2.symm
    · rw [turbsimIds]
      simp only [if_neg hc]
      push_neg at hc
      obtain ⟨hr, hf⟩ := hc
      subst hf
      interval_cases reps
      · simp
      · simpa using innerIds_nodup us tis none hu' ht'

theorem fmtChars_5 : fmtChars 5 = ['0', '5', 'd', '0', '0'] := by
  have h : pyRound ((5 : ℚ) * 100) = 500 := by norm_num [pyRound]
  simp only [fmtChars, fmtCore, fmtIntPart, fmtFracPart, fmtSign, h]
  rfl

theorem fmtChars_10 : fmtChars 10 = ['1', '0', 'd', '0', '0'] := by
  have h : pyRound ((10 : ℚ) * 100) = 1000 := by norm_num [pyRound]
  simp only [fmtChars, fmtCore, fmtIntPart, fmtFracPart, fmtSign, h]
  rfl

theorem fmtChars_20 : fmtChars 20 = ['2', '0', 'd', '0', '0'] := by
  have h : pyRound ((20 : ℚ) * 100) = 2000 := by norm_num [pyRound]
  simp only [fmtChars, fmtCore, fmtIntPart, fmtFracPart, fmtSign, h]
  rfl

/-- Claim C4 counterexample: the wind-speed list `[5, 5]` with intensity
list `[10]` (one wind field per case) produces the right number of cases,
`2 = 2 x 1`, but the two generated ids are both `U_05d00_TI_10d00` — the
ids are not pairwise distinct for every supplied list. -/
theorem claim_C4_counterexample :
    turbsimIds [5, 5] [10] 1 1 =
      ["U_05d00_TI_10d00", "U_05d00_TI_10d00"] ∧
    ¬ (turbsimIds [5, 5] [10] 1 1).Nodup ∧
    (turbsimIds [5, 5] [10] 1 1).length =
      1 * ([(5 : ℚ), 5].length * [(10 : ℚ)].length) := by
  have hid : caseId 5 10 none = "U_05d00_TI_10d00" := by
    rw [caseId, caseIdChars, fmtChars_5, fmtChars_10]
    rfl
  have hids : turbsimIds [5, 5] [10] 1 1 =
      ["U_05d00_TI_10d00", "U_05d00_TI_10d00"] := by
    rw [turbsimIds]
    simp only [if_neg (by norm_num : ¬ ((1 : ℕ) < 1 ∨ (1 : ℕ) ≠ 1))]
    simp [innerIds, List.range', hid]
  refine ⟨hids, ?_, ?_⟩
  · rw [hids]
    decide
  · rw [hids]
    rfl

/-- Witness for the amended C4: speeds [5, 10], intensities [10, 20],
two wind fields per case — 4 ids per replicate, 8 in total, all
distinct. -/
theorem claim_C4_amended_witness :
    (([(5 : ℚ), 10].map fmtChars).Nodup ∧
      ([(10 : ℚ), 20].map fmtChars).Nodup) ∧
    ((turbsimIds [5, 10] [10, 20] 2 1).length =
      2 * ([(5 : ℚ), 10].length * [(10 : ℚ), 20].length) ∧
    (turbsimIds [5, 10] [10, 20] 2 1).Nodup) := by
  have hu : ([(5 : ℚ), 10].map fmtChars).Nodup := by
    simp only [List.map_cons, List.map_nil, fmtChars_5, fmtChars_10]
    decide
  have ht : ([(10 : ℚ), 20].map fmtChars).Nodup := by
    simp only [List.map_cons, List.map_nil, fmtChars_10, fmtChars_20]
    decide
  exact ⟨⟨hu, ht⟩, claim_C4_amended [5, 10] [10, 20] 2 1 hu ht⟩

end Simdriver
